import Mathlib

/-
Verification of the sandbox-bridge module (luaexec.py) of wikitextprocessor.

This file gives a shallow embedding of the pure/stateful logic of the
source file src/wikitextprocessor/luaexec.py and proves the specified
properties about it.  External collaborators (the content store, the
filesystem, the host expander's recursive expansion, Python's stdlib
html.unescape and unicodedata.normalize, and the Lua guest runtime) are
modelled as explicit function parameters; everything else is translated
from the source line by line.

Conventions:
  * Python strings are Lean String values; scanning loops are written
    over List Char with explicit fuel where the recursion is not
    structural, so that every definition evaluates by kernel reduction.
  * Python dicts are association lists with Python's insertion-order
    semantics: updating an existing key keeps its position, a new key is
    appended at the end.
  * The host context object ctx is a Ctx structure holding exactly the
    fields of ctx that luaexec.py reads or writes (plus two ghost
    counters recording how often the guest runtime was initialized or
    soft-reset, used to state "the runtime was not touched" claims).
-/

namespace Wtp

/-! ## Small Python-compatible string utilities -/

/-- Python whitespace for the purposes of str.strip / regex \s
(ASCII space, tab, newline, carriage return, vertical tab, form feed). -/
def pyWs (c : Char) : Bool :=
  c = ' ' || c = '\t' || c = '\n' || c = '\r' || c = '\x0b' || c = '\x0c'

/-- Python str.strip() on a character list. -/
def pyStripL (l : List Char) : List Char :=
  ((l.dropWhile pyWs).reverse.dropWhile pyWs).reverse

/-- Python str.strip() on strings. -/
def pyStrip (s : String) : String := ⟨pyStripL s.data⟩

/-- Substring occurrence test on character lists. -/
def infixB : List Char → List Char → Bool
  | sub, [] => sub.isEmpty
  | sub, c :: rest => sub.isPrefixOf (c :: rest) || infixB sub rest

/-- Python substring test: `sub in s`. -/
def pyIn (sub s : String) : Bool := infixB sub.data s.data

/-- Python str.startswith on strings. -/
def pyStartswith (s pre : String) : Bool := pre.data.isPrefixOf s.data

/-- Python "|".join. -/
def joinBar : List String → String
  | [] => ""
  | [a] => a
  | a :: rest => a ++ "|" ++ joinBar rest

/-- ASCII decimal digit test (Python str.isdigit restricted to ASCII,
which is the only kind of digit the code under verification feeds it). -/
def isDig (c : Char) : Bool := '0' ≤ c && c ≤ '9'

/-- Python str.isdigit(): nonempty and all digits. -/
def pyIsdigitL (l : List Char) : Bool := !l.isEmpty && l.all isDig

/-- Python str.isdigit() on strings. -/
def pyIsdigit (s : String) : Bool := pyIsdigitL s.data

/-- Value of a decimal digit character. -/
def digVal (c : Char) : Nat := c.toNat - 48

/-- Python int() on a string of decimal digits. -/
def parseDigits (l : List Char) : Nat := l.foldl (fun a c => a * 10 + digVal c) 0

/-- Digit character for d < 10. -/
def digCh (d : Nat) : Char := Char.ofNat (48 + d)

/-- Decimal digit characters of n, most significant first; fuel-driven so
that it evaluates by kernel reduction.  With fuel ≥ 1 + log10 n this is
Python str() of a nonnegative integer. -/
def natStrAux : Nat → Nat → List Char
  | 0, _ => []
  | fuel + 1, n => if n < 10 then [digCh n] else natStrAux fuel (n / 10) ++ [digCh (n % 10)]

/-- Python str() of a natural number. -/
def pyStrNat (n : Nat) : String := ⟨natStrAux (n + 1) n⟩

/-- Python str() of an integer. -/
def pyStrInt (k : Int) : String :=
  if k < 0 then "-" ++ pyStrNat (-k).toNat else pyStrNat k.toNat

/-- Python html.escape(s, quote=True): the stdlib runs the five
replacements sequentially starting with the ampersand, which is
equivalent to this single character-wise expansion. -/
def html_escape (s : String) : String :=
  ⟨s.data.foldr (fun c acc =>
      if c = '&' then "&amp;".data ++ acc
      else if c = '<' then "&lt;".data ++ acc
      else if c = '>' then "&gt;".data ++ acc
      else if c = '"' then "&quot;".data ++ acc
      else if c = '\x27' then "&#x27;".data ++ acc
      else c :: acc) []⟩

/-! ## filter_attribute_access (luaexec.py lines 291-294)

The attribute filter installed at LuaRuntime construction.  A Lua-side
attribute name is either a string or some non-string value; Python's
isinstance check is modelled by the constructor split. -/

/-- An attribute name as seen by lupa's attribute_filter. -/
inductive LuaAttr where
  | str (s : String)
  | nonStr
  deriving DecidableEq

/-- luaexec.py lines 291-294: return the name if it is a string not
starting with an underscore, otherwise raise AttributeError.  The
is_setting flag (read vs write) is accepted and, as in the source,
never inspected. -/
def filter_attribute_access (attr : LuaAttr) (isSetting : Bool) :
    Except String String :=
  match attr with
  | .str s =>
      if !(pyStartswith s "_") then .ok s
      else .error "access denied"
  | .nonStr => .error "access denied"

/-! ## mw_text_decode (luaexec.py lines 83-109)

Python's html.unescape (the decodeNamedEntities=True path) is an
external stdlib collaborator and is passed in as a parameter.  The
selective path is the finditer loop over the regex
&(lt|gt|amp|quot|nbsp); translated to a literal left-to-right scan. -/

/-- The selective entity replacement loop of mw_text_decode: at each
position, if one of the five entity references &lt; &gt; &amp; &quot;
&nbsp; starts here (the finditer match), it is replaced by its
character and the scan continues after it; otherwise the character is
copied.  Fuel-driven (each step consumes at least one character, so
fuel = length suffices) to keep the recursion structural
(luaexec.py lines 89-109). -/
def decodeSelF : Nat → List Char → List Char
  | 0, l => l
  | _ + 1, [] => []
  | fuel + 1, c :: rest =>
      if "&lt;".data.isPrefixOf (c :: rest) then '<' :: decodeSelF fuel (rest.drop 3)
      else if "&gt;".data.isPrefixOf (c :: rest) then '>' :: decodeSelF fuel (rest.drop 3)
      else if "&amp;".data.isPrefixOf (c :: rest) then '&' :: decodeSelF fuel (rest.drop 4)
      else if "&quot;".data.isPrefixOf (c :: rest) then '"' :: decodeSelF fuel (rest.drop 5)
      else if "&nbsp;".data.isPrefixOf (c :: rest) then '\xa0' :: decodeSelF fuel (rest.drop 5)
      else c :: decodeSelF fuel rest

/-- The selective replacement at full fuel. -/
def decodeSel (l : List Char) : List Char := decodeSelF l.length l

/-- luaexec.py lines 83-109, mw.text.decode.  htmlUnescape models the
stdlib html.unescape used when decodeNamedEntities is set. -/
def mw_text_decode (htmlUnescape : String → String)
    (text : String) (decodeNamedEntities : Bool) : String :=
  if decodeNamedEntities then htmlUnescape text
  else ⟨decodeSel text.data⟩

/-! ## lua_loader (luaexec.py lines 36-80)

The content store (ctx.read_by_title) and the filesystem are external
collaborators passed in as functions.  NAMESPACE_DATA["Module"] is the
NsData record. -/

/-- The "Module" namespace entry of ctx.NAMESPACE_DATA: canonical name,
alias list and numeric namespace id. -/
structure NsData where
  name : String
  aliases : List String
  id : Int

/-- modname[modname.find(":") + 1 :] — Python find returns -1 when the
character is absent, in which case the slice is the whole string. -/
def afterFirstColon (s : String) : String :=
  match s.data.findIdx? (· = ':') with
  | none => s
  | some i => ⟨s.data.drop (i + 1)⟩

/-- luaexec.py lines 44-48: rewrite a configured namespace alias to the
canonical module-namespace prefix. -/
def rewriteAlias (ns : NsData) (m : String) : String :=
  if (ns.aliases.map (· ++ ":")).any (fun p => pyStartswith m p) then
    (ns.name ++ ":") ++ afterFirstColon m
  else m

/-- Collapse runs of two or more copies of c to a single c
(re.sub(r"//+", "/", ...) and re.sub(r"\.\.+", ".", ...)). -/
def collapseRuns (c : Char) : List Char → List Char
  | [] => []
  | [a] => [a]
  | a :: b :: rest =>
      if a = c && b = c then collapseRuns c (b :: rest)
      else a :: collapseRuns c (b :: rest)

/-- luaexec.py lines 62-69: turn a library module name into a relative
file path. -/
def libPath (modname : String) : String :=
  let p := modname.data.filter (fun c => !(c.toNat ≤ 31))
  let p := p.map (fun c => if c = ':' then '/' else c)
  let p := p.map (fun c => if c = ' ' then '_' else c)
  let p := collapseRuns '/' p
  let p := collapseRuns '.' p
  -- re.sub(r"^//+", "", ...): needs two leading slashes to fire, which
  -- cannot happen after the collapse above; kept for fidelity.
  let p := match p with
           | '/' :: '/' :: _ => p.dropWhile (· = '/')
           | _ => p
  ⟨p⟩ ++ ".lua"

/-- luaexec.py lines 23-27: builtin_lua_search_paths. -/
def builtin_lua_search_paths : List (String × List String) :=
  [(".", ["string", "debug"]),
   ("mediawiki-extensions-Scribunto/includes/engines/LuaCommon/lualib", [])]

/-- luaexec.py lines 70-78: walk the search roots in order; skip a root
whose exclusion list contains the module name; first file hit wins.
files models the filesystem (os.path.isfile + open().read()). -/
def searchBuiltin (files : String → Option String) (luaDir : String)
    (modname path : String) : List (String × List String) → Option String
  | [] => none
  | (pre, exceptions) :: rest =>
      if exceptions.contains modname then
        searchBuiltin files luaDir modname path rest
      else
        match files (luaDir ++ pre ++ "/" ++ path) with
        | some data => some data
        | none => searchBuiltin files luaDir modname path rest

/-- luaexec.py lines 36-80: the Lua module loader.  readByTitle models
ctx.read_by_title (the content store), files the filesystem. -/
def lua_loader (ns : NsData) (readByTitle : String → Int → Option String)
    (files : String → Option String) (luaDir : String)
    (modname0 : String) : Option String :=
  let modname := pyStrip modname0
  let modname := rewriteAlias ns modname
  if pyStartswith modname "Module:" || pyStartswith modname (ns.name ++ ":") then
    -- Module names starting with _ are internal and cannot be loaded
    -- from the dump file (content store) for security reasons.
    if pyStartswith modname "Module:_" || pyStartswith modname (ns.name ++ ":_") then
      none
    else
      readByTitle modname ns.id
  else
    searchBuiltin files luaDir modname (libPath modname) builtin_lua_search_paths

/-! ## Value marshalling: mw_text_jsonencode / mw_text_jsondecode
(luaexec.py lines 127-189)

JSON documents are modelled by the tree JVal (json.loads / json.dumps
are the identity bridge between the textual form and this tree; dumps'
sort_keys=True is the explicit sortKeysJ pass below).  Guest (Lua)
values are modelled by LuaVal; a lupa table is its list of key/value
entries in iteration order.  Numbers are integers: the claims under
verification do not involve floating point.  Python dicts are
association lists with insertion-order update semantics (updAssoc). -/

/-- A JSON value (integer numerics only). -/
inductive JVal where
  | str (s : String)
  | num (n : Int)
  | bool (b : Bool)
  | null
  | arr (elems : List JVal)
  | obj (entries : List (String × JVal))

/-- A Lua table key: a (integer) number or a string. -/
inductive LuaKey where
  | num (n : Int)
  | str (s : String)
  deriving DecidableEq

/-- A guest (Lua) value. -/
inductive LuaVal where
  | str (s : String)
  | num (n : Int)
  | bool (b : Bool)
  | nil
  | table (entries : List (LuaKey × LuaVal))

/-- Python dict assignment d[k] = v: update in place if the key exists,
append otherwise. -/
def updAssoc {α β : Type} [DecidableEq α] (d : List (α × β)) (k : α) (v : β) :
    List (α × β) :=
  if d.any (fun p => p.1 = k) then
    d.map (fun p => if p.1 = k then (k, v) else p)
  else d ++ [(k, v)]

/-- Build a Python dict by successive assignments. -/
def dictFrom {α β : Type} [DecidableEq α] (l : List (α × β)) : List (α × β) :=
  l.foldl (fun d p => updAssoc d p.1 p.2) []

/-- Python sorted() on integer keys (a stable sort, as Python's is). -/
def pySortedInt (l : List Int) : List Int := List.insertionSort (· ≤ ·) l

/-- The integer keys of a table, in entry order. -/
def intKeysT (entries : List (LuaKey × LuaVal)) : List Int :=
  entries.filterMap (fun p => match p.1 with | .num n => some n | .str _ => none)

/-- All keys of the table are integers
(all(isinstance(k, int) for k in x.keys())). -/
def allIntKeysT (entries : List (LuaKey × LuaVal)) : Bool :=
  entries.all (fun p => match p.1 with | .num _ => true | .str _ => false)

/-- all(keys[i] == i + 1 for i in range(len(keys))) scanning a sorted
key list: position i must hold value i+1 (the argument starts at 1). -/
def checkRun : Int → List Int → Bool
  | _, [] => true
  | i, k :: ks => (k = i) && checkRun (i + 1) ks

/-- The {1..N}-exact-run test used by both JSON directions:
sort the integer keys and require them to be exactly 1, 2, ..., N. -/
def exactRunI (keys : List Int) : Bool := checkRun 1 (pySortedInt keys)

/-- Python str() of a Lua table key. -/
def pyStrKey : LuaKey → String
  | .num n => pyStrInt n
  | .str s => s

mutual

/-- luaexec.py lines 165-186: the recurse helper of mw_text_jsonencode.
Scalars pass through; a table becomes a JSON array iff the
JSON_PRESERVE_KEYS flag is unset, all keys are integers and the sorted
keys are exactly {1..N}; otherwise it becomes an object with
stringified keys assigned into a fresh dict. -/
def jsonencR (flags : Nat) : LuaVal → JVal
  | .str s => .str s
  | .num n => .num n
  | .bool b => .bool b
  | .nil => .null
  | .table entries =>
      let convToDict :=
        if (flags &&& 1) != 0 then true
        else if !(allIntKeysT entries) then true
        else !(exactRunI (intKeysT entries))
      if convToDict then .obj (dictFrom (jsonencO flags entries))
      else .arr (jsonencA flags entries)

/-- ht[str(k)] = recurse(v) pairs, in table iteration order. -/
def jsonencO (flags : Nat) : List (LuaKey × LuaVal) → List (String × JVal)
  | [] => []
  | (k, v) :: rest => (pyStrKey k, jsonencR flags v) :: jsonencO flags rest

/-- list(map(recurse, x.values())): the array branch. -/
def jsonencA (flags : Nat) : List (LuaKey × LuaVal) → List JVal
  | [] => []
  | (_, v) :: rest => jsonencR flags v :: jsonencA flags rest

end

/-- json.dumps sort_keys=True ordering of object entries: by key. -/
def sortObjKeys (kvs : List (String × JVal)) : List (String × JVal) :=
  List.insertionSort (fun a b => a.1 ≤ b.1) kvs

mutual

/-- json.dumps(value, sort_keys=True): object keys come out sorted at
every level, arrays keep their order. -/
def sortKeysJ : JVal → JVal
  | .str s => .str s
  | .num n => .num n
  | .bool b => .bool b
  | .null => .null
  | .arr xs => .arr (sortKeysJL xs)
  | .obj kvs => .obj (sortObjKeys (sortKeysJO kvs))

def sortKeysJL : List JVal → List JVal
  | [] => []
  | x :: xs => sortKeysJ x :: sortKeysJL xs

def sortKeysJO : List (String × JVal) → List (String × JVal)
  | [] => []
  | (k, v) :: rest => (k, sortKeysJ v) :: sortKeysJO rest

end

/-- luaexec.py lines 162-189: mw.text.jsonEncode (recurse then
json.dumps with sorted keys). -/
def mw_text_jsonencode (flags : Nat) (s : LuaVal) : JVal :=
  sortKeysJ (jsonencR flags s)

/-- lua.table_from(list): sequential integer keys starting at i. -/
def indexPairs (i : Int) : List LuaVal → List (LuaKey × LuaVal)
  | [] => []
  | v :: rest => (LuaKey.num i, v) :: indexPairs (i + 1) rest

/-- luaexec.py lines 142-147: the digit-key coercion loop.  A digit
string key is deleted and re-assigned under its integer value (hence
moves to the end of the dict, in processing order, with in-place
update on an integer-key collision); other keys stay in place. -/
def coerceKeys (kvs : List (String × LuaVal)) : List (LuaKey × LuaVal) :=
  (kvs.filter (fun p => !(pyIsdigit p.1))).map (fun p => (LuaKey.str p.1, p.2))
  ++ dictFrom ((kvs.filter (fun p => pyIsdigit p.1)).map
        (fun p => (LuaKey.num (parseDigits p.1.data), p.2)))

mutual

/-- luaexec.py lines 131-156: the recurse helper of mw_text_jsondecode.
Lists become tables with keys 1..N; dicts keep string keys under
JSON_PRESERVE_KEYS, otherwise digit keys are coerced to integers; the
all-integer and exact-run tests are then performed, every branch
returning ctx.lua.table_from(x) on the same dict (lines 148-156). -/
def jsondecR (flags : Nat) : JVal → LuaVal
  | .str s => .str s
  | .num n => .num n
  | .bool b => .bool b
  | .null => .nil
  | .arr xs => .table (indexPairs 1 (jsondecL flags xs))
  | .obj kvs =>
      if (flags &&& 1) == 1 then
        .table ((jsondecO flags kvs).map (fun p => (LuaKey.str p.1, p.2)))
      else
        let x := coerceKeys (jsondecO flags kvs)
        if !(allIntKeysT x) then .table x
        else if !(exactRunI (intKeysT x)) then .table x
        else .table x

def jsondecL (flags : Nat) : List JVal → List LuaVal
  | [] => []
  | v :: rest => jsondecR flags v :: jsondecL flags rest

def jsondecO (flags : Nat) : List (String × JVal) → List (String × LuaVal)
  | [] => []
  | (k, v) :: rest => (k, jsondecR flags v) :: jsondecO flags rest

end

/-- luaexec.py lines 127-159: mw.text.jsonDecode (json.loads is the
identity bridge onto JVal; object keys coming from a real JSON parse
are distinct). -/
def mw_text_jsondecode (flags : Nat) (v : JVal) : LuaVal :=
  jsondecR flags v

/-! ## make_frame argument parsing (luaexec.py lines 387-424)

Only the positional (list) branch is claimed about; html.unescape is
again a stdlib parameter.  The name/value regex
(?s)^\s*([^<>="\x27]+?)\s*=\s*(.*?)\s*$ is modelled by its exact
characterization: since both '=' and the other special characters are
excluded from the name class and the paddings are whitespace, a match
exists iff the first '=' of the string sits at position i ≥ 1 and no
character of <, >, ", \x27 occurs before it; the non-greedy name group
is then the stripped prefix (or, when the prefix is pure whitespace,
its last character, reached by backtracking of the leading \s*), and
the value group is the stripped remainder. -/

/-- The characters excluded from the regex name class besides '='. -/
def reForbidden (c : Char) : Bool :=
  c = '<' || c = '>' || c = '"' || c = '\x27'

/-- Split at the first '='. -/
def splitFirstEq (l : List Char) : Option (List Char × List Char) :=
  match l.findIdx? (· = '=') with
  | none => none
  | some i => some (l.take i, l.drop (i + 1))

/-- Model of re.match(r"(?s)^\s*([^<>="\x27]+?)\s*=\s*(.*?)\s*$", arg)
returning the two groups (luaexec.py line 402). -/
def matchNamed (s : String) : Option (String × String) :=
  match splitFirstEq s.data with
  | none => none
  | some (before, after) =>
      if before.isEmpty then none
      else if before.any reForbidden then none
      else
        let k := pyStripL before
        let k := if k.isEmpty then [before.getLastD ' '] else k
        some (⟨k⟩, ⟨pyStripL after⟩)

/-- Case-insensitive literal prefix strip (the pattern is lowercase). -/
def stripPrefixCI : List Char → List Char → Option (List Char)
  | [], l => some l
  | _ :: _, [] => none
  | p :: ps, c :: cs => if c.toLower = p then stripPrefixCI ps cs else none

/-- Try to match (?si)<\s*noinclude\s*/\s*> at the head; on success
return the remainder. -/
def tryNoinclude : List Char → Option (List Char)
  | '<' :: rest =>
      match stripPrefixCI "noinclude".data (rest.dropWhile pyWs) with
      | none => none
      | some r2 =>
          match r2.dropWhile pyWs with
          | '/' :: r4 =>
              match r4.dropWhile pyWs with
              | '>' :: r5 => some r5
              | _ => none
          | _ => none
  | _ => none

/-- re.sub(r"(?si)<\s*noinclude\s*/\s*>", "", arg): leftmost
non-overlapping matches removed.  Fuel-driven scan; every step consumes
at least one character, so fuel = length suffices. -/
def stripNoincludeAux : Nat → List Char → List Char
  | 0, l => l
  | _ + 1, [] => []
  | fuel + 1, c :: rest =>
      match tryNoinclude (c :: rest) with
      | some t => stripNoincludeAux fuel t
      | none => c :: stripNoincludeAux fuel rest

/-- The <noinclude/> stripping of luaexec.py lines 421, 394. -/
def stripNoinclude (s : String) : String :=
  ⟨stripNoincludeAux s.data.length s.data⟩

/-- A frame-argument key: a positional / explicit numeric key, or a
name. -/
inductive FKey where
  | num (n : Nat)
  | str (s : String)
  deriving DecidableEq

/-- State of the positional-argument loop: the dict built so far and
the running positional counter num. -/
structure FrameSt where
  dict : List (FKey × String)
  num : Nat

/-- One iteration of the loop at luaexec.py lines 401-423; hu models
html.unescape. -/
def mfStep (hu : String → String) (st : FrameSt) (arg : String) : FrameSt :=
  match matchNamed arg with
  | some (k, v) =>
      if pyIsdigit k then
        let kn := parseDigits k.data
        let kn := if kn < 1 || kn > 1000 then 1000 else kn
        let num2 := if st.num ≤ kn then kn + 1 else st.num
        { dict := updAssoc st.dict (.num kn) (hu (stripNoinclude v)),
          num := num2 }
      else
        { dict := updAssoc st.dict (.str k) (hu (stripNoinclude v)),
          num := st.num }
  | none =>
      { dict := updAssoc st.dict (.num st.num) (hu (stripNoinclude arg)),
        num := st.num + 1 }

/-- luaexec.py lines 397-424: frame_args built from a positional
argument list. -/
def make_frame_args (hu : String → String) (args : List String) :
    List (FKey × String) :=
  (args.foldl (mfStep hu) ⟨[], 1⟩).dict

/-- Runs the loop and checks, at every unnamed positional argument,
that the key it is about to use is absent from the dict built so far
(i.e. that the insertion extends the dict instead of overwriting). -/
def posFreshCheck (hu : String → String) : FrameSt → List String → Bool
  | _, [] => true
  | st, a :: rest =>
      (match matchNamed a with
       | none => !(st.dict.any (fun p => p.1 = FKey.num st.num))
       | some _ => true)
      && posFreshCheck hu (mfStep hu st a) rest

/-! ## call_lua_sandbox (luaexec.py lines 337-692)

The host context is the Ctx record below: exactly the ctx fields the
driver reads or writes (lua, lua_depth, expand_stack, the diagnostics
sink), plus two ghost counters that record how many times the guest
runtime was constructed (initialize_lua, line 362) or soft-reset
(lines 366-371) — they let "the runtime was not touched" be stated.
The expand_stack is kept with its most recent entry at the head, so
Python's append is cons and pop() removes the head.

ctx.lua_invoke — the call into the guest, together with everything the
guest does while running, including its callbacks into the host
expander — is the oracle parameter: a function from the context at
call time to the context at return time plus the returned value or the
caught exception.  The theorems quantify over all oracles; invariants
on nested invocations follow because a nested call_lua_sandbox is
itself such an oracle. -/

/-- Host-side context state used by the driver. -/
structure Ctx where
  luaInit : Bool
  lua_depth : Nat
  expand_stack : List String
  debugLog : List String
  errorLog : List String
  inits : Nat
  resets : Nat

/-- ctx.debug(...): appends to the diagnostics sink. -/
def addDebug (ctx : Ctx) (m : String) : Ctx :=
  { ctx with debugLog := m :: ctx.debugLog }

/-- ctx.error(...): appends to the diagnostics sink. -/
def addError (ctx : Ctx) (m : String) : Ctx :=
  { ctx with errorLog := m :: ctx.errorLog }

/-- What the ctx.lua_invoke call produces, as seen through the
try/except of luaexec.py lines 614-631: a non-sequence value, a
one-element sequence, a two-element sequence, a UnicodeDecodeError
while decoding the returned text, or a lupa.LuaError.  For the
LuaError case the carried string is the fully rendered error text
(str(e) followed by the joined traceback lines, lines 645-653), since
the traceback rendering of a host exception object is outside the
embedded fragment. -/
inductive LuaRet where
  | scalar (ok : Bool)
  | single (ok : Bool)
  | pair (ok : Bool) (text : Option String)
  | unicodeError
  | luaError (trace : String)

/-- The text variable after unpacking: a string, Python None, or the
exception object. -/
inductive TV where
  | str (s : String)
  | noneV
  | exn (trace : String)

/-- A Python exception escaping the modelled fragment. -/
inductive PyExn where
  | indexError
  deriving DecidableEq

/-- External collaborators of the driver: the caller-supplied argument
expander and unicodedata.normalize("NFC", -). -/
structure Env where
  expander : String → String
  nfc : String → String

/-- Try to match the pattern :\d+(: ) at the head of the line (the
tail of one occurrence of the message-prefix regex .*?:\d+: ). -/
def flmAt : List Char → Option (List Char)
  | ':' :: rest =>
      if (rest.takeWhile isDig).isEmpty then none
      else
        match rest.dropWhile isDig with
        | ':' :: ' ' :: t => some t
        | _ => none
  | _ => none

/-- First position where :\d+: matches; returns the suffix after it. -/
def findAfterFLM : List Char → Option (List Char)
  | [] => none
  | c :: rest =>
      match flmAt (c :: rest) with
      | some t => some t
      | none => findAfterFLM rest

/-- re.sub(r".*?:\d+: ", "", line): each leftmost-shortest match runs
from the current scan position to the end of the next file:line:
marker and is deleted.  Fuel-driven; each round consumes at least four
characters. -/
def stripFLMAux : Nat → List Char → List Char
  | 0, l => l
  | fuel + 1, l =>
      match findAfterFLM l with
      | some t => stripFLMAux fuel t
      | none => l

/-- luaexec.py line 656: msg = re.sub(r".*?:\d+: ", "",
text.split("\n", 1)[0]). -/
def luaErrMsg (text : String) : String :=
  ⟨stripFLMAux text.data.length (text.data.takeWhile (· ≠ '\n'))⟩

/-- luaexec.py lines 686-692: the rendered error banner, with the
timeout-specific message variant when the trace carries the timeout
marker. -/
def luaErrorBanner (modname modfn text : String) : String :=
  let msg := if pyIn "Lua timeout error" text then "Lua timeout error"
             else "Lua execution error"
  "<strong class=\"error\">" ++ msg ++ " in Module:" ++ html_escape modname
    ++ " function " ++ html_escape modfn ++ "</strong>"

/-- The two content-specific false-positive conditions under which a
guest error is swallowed entirely (luaexec.py lines 660-670): they can
only fire when the debug.error branch (line 657) did not. -/
def lua_error_swallowed (text : String) : Bool :=
  !(pyIn "\x27debug.error\x27" text)
  && (pyIn "Translations must be for attested and approved " text
      || (pyIn "attempt to index a nil value (local \x27lang\x27)" text
          && pyIn "in function \x27Module:links.getLinkPage\x27" text))

/-- luaexec.py lines 656-692: message extraction, the classification
chain, and the banner.  invokeDesc stands for the formatted
"{invoke_args} parent {parent}" interpolation used in the log strings.
Returns the driver's result text and the updated context. -/
def classify_lua_error (invokeDesc modname modfn : String) (text : String)
    (ctx : Ctx) : String × Ctx :=
  let msg := luaErrMsg text
  if pyIn "\x27debug.error\x27" text then
    let ctx :=
      if !(pyStartswith msg "This template is deprecated.") then
        addDebug ctx ("lua error -- " ++ msg)
      else ctx
    (luaErrorBanner modname modfn text, ctx)
  else if pyIn "Translations must be for attested and approved " text then
    ("", ctx)
  else if pyIn "attempt to index a nil value (local \x27lang\x27)" text
          && pyIn "in function \x27Module:links.getLinkPage\x27" text then
    ("", ctx)
  else
    let ctx :=
      if ctx.expand_stack.contains "check deprecated lang param usage" then
        addDebug ctx ("LUA error but likely not bug -- in #invoke " ++ invokeDesc)
      else
        addError ctx ("LUA error in #invoke " ++ invokeDesc)
    (luaErrorBanner modname modfn text, ctx)

/-- luaexec.py lines 357-372: initialize the runtime on first use, or
soft-reset it, when (and only when) the call enters at depth 0.  Only
the ghost effect is host-visible: the entry points live in the guest. -/
def ensureLua (ctx : Ctx) : Ctx :=
  if ctx.lua_depth = 0 then
    if !ctx.luaInit then { ctx with luaInit := true, inits := ctx.inits + 1 }
    else { ctx with resets := ctx.resets + 1 }
  else ctx

/-- luaexec.py lines 614-631: unpack the guest return value through the
try/except, producing the ok flag, the text value, and the context
(the UnicodeDecodeError handler logs a debug note). -/
def unpackRet (invokeDesc : String) (ctx : Ctx) : LuaRet → Bool × TV × Ctx
  | .scalar ok => (ok, .str "", ctx)
  | .single ok => (ok, .str "", ctx)
  | .pair ok t => (ok, (match t with | some s => TV.str s | none => TV.noneV), ctx)
  | .unicodeError =>
      (true, .str "",
       addDebug ctx ("invalid unicode returned from lua by " ++ invokeDesc))
  | .luaError tr => (false, .exn tr, ctx)

/-- luaexec.py lines 632-634: finally, pop the expansion stack back
down to its pre-call length (never pushing anything back). -/
def popTo (n : Nat) (ctx : Ctx) : Ctx :=
  { ctx with expand_stack := ctx.expand_stack.drop (ctx.expand_stack.length - n) }

/-- luaexec.py line 613: push the human-readable frame label. -/
def pushFrameLabel (modname modfn : String) (ctx : Ctx) : Ctx :=
  { ctx with
    expand_stack := ("Lua:" ++ modname ++ ":" ++ modfn ++ "()") :: ctx.expand_stack }

/-- luaexec.py lines 644-655: the failure text as a string (an
exception is already carried rendered; None prints as "None"). -/
def renderTV : TV → String
  | .str s => s
  | .noneV => "None"
  | .exn tr => tr

/-- luaexec.py lines 632-692: stack restoration, depth decrement, and
the success / failure tails. -/
def afterGuest (env : Env) (invokeDesc modname modfn : String) (stackLen : Nat)
    (unp : Bool × TV × Ctx) : Except PyExn String × Ctx :=
  let ctx4 := popTo stackLen unp.2.2
  let ctx5 := { ctx4 with lua_depth := ctx4.lua_depth - 1 }
  if unp.1 then
    (.ok (env.nfc (match unp.2.1 with | .str s => s | .noneV => "" | .exn tr => tr)),
     ctx5)
  else
    let r := classify_lua_error invokeDesc modname modfn (renderTV unp.2.1) ctx5
    (.ok r.1, r.2)

/-- luaexec.py lines 357-692: the body of the driver once the argument
count has been validated. -/
def call_lua_main (env : Env) (oracle : Ctx → Ctx × LuaRet)
    (invoke_args : List String) (invokeDesc : String) (ctx : Ctx) :
    Except PyExn String × Ctx :=
  let ctx2 := { (ensureLua ctx) with lua_depth := (ensureLua ctx).lua_depth + 1 }
  let modname := pyStrip (env.expander (invoke_args.headD ""))
  let modfn := pyStrip (env.expander ((invoke_args.drop 1).headD ""))
  let res := oracle (pushFrameLabel modname modfn ctx2)
  afterGuest env invokeDesc modname modfn ctx2.expand_stack.length
    (unpackRet invokeDesc res.1 res.2)

/-- luaexec.py lines 337-692: the invocation driver.  The frames built
at lines 596-609 are guest-side tables (their argument parsing is
make_frame_args above) and do not change the host fields of Ctx, so
they do not appear in the state threading.  A result of
.error .indexError models the uncaught IndexError that line 355 raises
on an empty argument list. -/
def call_lua_sandbox (env : Env) (oracle : Ctx → Ctx × LuaRet)
    (invoke_args : List String) (invokeDesc : String) (ctx : Ctx) :
    Except PyExn String × Ctx :=
  if invoke_args.length < 2 then
    let ctx := addDebug ctx ("#invoke " ++ invokeDesc ++ " with too few arguments")
    match invoke_args with
    | [] => (.error .indexError, ctx)
    | a0 :: rest =>
        (.ok ("\x7b\x7b" ++ a0 ++ ":" ++ joinBar rest ++ "\x7d\x7d"), ctx)
  else
    call_lua_main env oracle invoke_args invokeDesc ctx

/-! ## Helper lemmas -/

theorem isPrefixOf_append_self (s r : List Char) : s.isPrefixOf (s ++ r) = true := by
  induction s with
  | nil => simp [List.isPrefixOf]
  | cons a as ih => simp [List.isPrefixOf, ih]

theorem infixB_of_isPrefixOf {s l : List Char} (h : s.isPrefixOf l = true) :
    infixB s l = true := by
  cases l with
  | nil =>
      cases s with
      | nil => rfl
      | cons a as => simp [List.isPrefixOf] at h
  | cons c rest => simp [infixB, h]

theorem infixB_cons_of {s rest : List Char} (c : Char) (h : infixB s rest = true) :
    infixB s (c :: rest) = true := by
  simp [infixB, h]

theorem pyStartswith_of_append {s : String} {p q : List Char}
    (h : pyStartswith s ⟨p ++ q⟩ = true) : pyStartswith s ⟨p⟩ = true := by
  unfold pyStartswith at h ⊢
  rw [List.isPrefixOf_iff_prefix] at h ⊢
  exact (List.prefix_append p q).trans h

theorem classify_lua_error_state (d m f t : String) (ctx : Ctx) :
    ((classify_lua_error d m f t ctx).2).lua_depth = ctx.lua_depth
    ∧ ((classify_lua_error d m f t ctx).2).expand_stack = ctx.expand_stack
    ∧ ((classify_lua_error d m f t ctx).2).luaInit = ctx.luaInit
    ∧ ((classify_lua_error d m f t ctx).2).inits = ctx.inits
    ∧ ((classify_lua_error d m f t ctx).2).resets = ctx.resets := by
  unfold classify_lua_error addDebug addError
  split_ifs
  all_goals first
  | rfl
  | simp [apply_ite Ctx.lua_depth, apply_ite Ctx.expand_stack, apply_ite Ctx.luaInit,
          apply_ite Ctx.inits, apply_ite Ctx.resets]

theorem unpackRet_state (d : String) (ctx : Ctx) (r : LuaRet) :
    ((unpackRet d ctx r).2.2).lua_depth = ctx.lua_depth
    ∧ ((unpackRet d ctx r).2.2).expand_stack = ctx.expand_stack
    ∧ ((unpackRet d ctx r).2.2).luaInit = ctx.luaInit
    ∧ ((unpackRet d ctx r).2.2).inits = ctx.inits
    ∧ ((unpackRet d ctx r).2.2).resets = ctx.resets := by
  cases r <;> simp [unpackRet, addDebug]

theorem ensureLua_state (ctx : Ctx) :
    (ensureLua ctx).lua_depth = ctx.lua_depth
    ∧ (ensureLua ctx).expand_stack = ctx.expand_stack
    ∧ (ensureLua ctx).debugLog = ctx.debugLog
    ∧ (ensureLua ctx).errorLog = ctx.errorLog := by
  unfold ensureLua
  repeat' split <;> simp

/-! ## Claim theorems -/

/-- C9: the attribute-access filter installed at guest-runtime
construction permits an access exactly when the attribute name is a
string that does not begin with an underscore; every non-string name
and every underscore-prefixed name is denied with an access-denied
error, and the decision is the same for reads and writes (the
is_setting flag is never consulted). -/
theorem C9_filter_attribute_access (s : String) (isSetting : Bool) :
    filter_attribute_access (.str s) isSetting
      = (if pyStartswith s "_" then .error "access denied" else .ok s)
    ∧ filter_attribute_access .nonStr isSetting = .error "access denied"
    ∧ filter_attribute_access (.str s) true = filter_attribute_access (.str s) false := by
  refine ⟨?_, rfl, rfl⟩
  by_cases h : pyStartswith s "_" <;> simp [filter_attribute_access, h]

/-- C1: a module reference whose normalized form (stripped, aliases
rewritten to the canonical prefix) names a content-store module with a
local name beginning with the reserved internal marker is never served
from the content store: the loader returns not-found no matter what
the store contains (the store function readByTitle is universally
quantified and unused). -/
theorem C1_lua_loader_internal (ns : NsData)
    (readByTitle : String → Int → Option String)
    (files : String → Option String) (luaDir : String) (modname : String)
    (h : pyStartswith (rewriteAlias ns (pyStrip modname)) "Module:_" = true
       ∨ pyStartswith (rewriteAlias ns (pyStrip modname)) (ns.name ++ ":_") = true) :
    lua_loader ns readByTitle files luaDir modname = none := by
  unfold lua_loader
  rcases h with h | h
  · have hm : pyStartswith (rewriteAlias ns (pyStrip modname)) "Module:" = true := by
      have : ("Module:_" : String) = ⟨"Module:".data ++ "_".data⟩ := rfl
      exact pyStartswith_of_append (p := "Module:".data) (q := "_".data) (this ▸ h)
    simp [hm, h]
  · have hm : pyStartswith (rewriteAlias ns (pyStrip modname)) (ns.name ++ ":") = true := by
      have h2 : (ns.name ++ ":_" : String) = ⟨(ns.name ++ ":").data ++ "_".data⟩ := by
        apply congrArg String.mk
        simp [String.data_append, List.append_assoc]
      have := pyStartswith_of_append (p := (ns.name ++ ":").data) (q := "_".data) (h2 ▸ h)
      simpa using this
    simp [hm, h]

/-- C1 witness: with a store that contains an entry under the exact
internal title, the loader still yields not-found. -/
theorem C1_lua_loader_internal_witness :
    pyStartswith (rewriteAlias ⟨"Module", ["Mod"], 828⟩ (pyStrip "Module:_sandbox")) "Module:_" = true
    ∧ lua_loader ⟨"Module", ["Mod"], 828⟩ (fun t _ => some ("store content of " ++ t))
        (fun _ => none) "lua/" "Module:_sandbox" = none := by
  refine ⟨by decide, ?_⟩
  exact C1_lua_loader_internal ⟨"Module", ["Mod"], 828⟩
    (fun t _ => some ("store content of " ++ t)) (fun _ => none) "lua/" "Module:_sandbox"
    (Or.inl (by decide))

theorem afterGuest_depth (env : Env) (d m f : String) (n : Nat)
    (unp : Bool × TV × Ctx) :
    ((afterGuest env d m f n unp).2).lua_depth = unp.2.2.lua_depth - 1 := by
  unfold afterGuest
  by_cases h : unp.1 <;>
    simp [h, popTo, (classify_lua_error_state _ _ _ _ _).1]

theorem afterGuest_stack (env : Env) (d m f : String) (n : Nat)
    (unp : Bool × TV × Ctx) :
    ((afterGuest env d m f n unp).2).expand_stack
      = unp.2.2.expand_stack.drop (unp.2.2.expand_stack.length - n) := by
  unfold afterGuest
  by_cases h : unp.1 <;>
    simp [h, popTo, (classify_lua_error_state _ _ _ _ _).2.1]

/-- C2 counterexample: on the empty argument list — which the claim
explicitly includes — the driver does not return the re-assembled
markup text: line 355 indexes invoke_args[0] and raises IndexError. -/
theorem C2_empty_args_raises :
    (call_lua_sandbox ⟨fun s => s, fun s => s⟩
        (fun c => (c, LuaRet.pair true (some "x"))) [] "[]"
        ⟨false, 0, [], [], [], 0, 0⟩).1 = Except.error PyExn.indexError := rfl

/-- C2 (amended): for every one-element argument list ["name"] the
driver returns exactly the literal "\x7b\x7bname:\x7d\x7d", only logs a
debug note, and never touches the guest runtime: the result is the
same for every oracle, the runtime is neither initialized (inits,
luaInit) nor reset (resets) nor called, and the depth counter and
expansion stack are unchanged.  (The claim's inclusion of the empty
list fails: see the counterexample.) -/
theorem C2_single_arg_literal (env : Env) (oracle : Ctx → Ctx × LuaRet)
    (a0 desc : String) (ctx : Ctx) :
    (call_lua_sandbox env oracle [a0] desc ctx).1
        = Except.ok ("\x7b\x7b" ++ a0 ++ ":\x7d\x7d")
    ∧ (call_lua_sandbox env oracle [a0] desc ctx).2
        = addDebug ctx ("#invoke " ++ desc ++ " with too few arguments")
    ∧ (call_lua_sandbox env oracle [a0] desc ctx).2.lua_depth = ctx.lua_depth
    ∧ (call_lua_sandbox env oracle [a0] desc ctx).2.luaInit = ctx.luaInit
    ∧ (call_lua_sandbox env oracle [a0] desc ctx).2.inits = ctx.inits
    ∧ (call_lua_sandbox env oracle [a0] desc ctx).2.resets = ctx.resets
    ∧ (call_lua_sandbox env oracle [a0] desc ctx).2.expand_stack = ctx.expand_stack
    ∧ (call_lua_sandbox env oracle [a0] desc ctx).2.errorLog = ctx.errorLog := by
  refine ⟨?_, rfl, rfl, rfl, rfl, rfl, rfl, rfl⟩
  show Except.ok ("\x7b\x7b" ++ a0 ++ ":" ++ joinBar [] ++ "\x7d\x7d") = _
  have h1 : (":" : String) ++ "\x7d\x7d" = ":\x7d\x7d" := rfl
  simp [joinBar, String.append_assoc, h1]

/-- C5: the re-entrancy depth counter is restored on every return path
of the driver — malformed requests, success, and every guest-error
path alike.  The oracle (the guest call, including any nested
invocations it performs) is any state transformer that preserves the
depth counter; nested driver calls satisfy that hypothesis by this
very theorem. -/
theorem C5_depth_invariant (env : Env) (oracle : Ctx → Ctx × LuaRet)
    (args : List String) (desc : String) (ctx : Ctx)
    (h : ∀ c, ((oracle c).1).lua_depth = c.lua_depth) :
    ((call_lua_sandbox env oracle args desc ctx).2).lua_depth = ctx.lua_depth := by
  unfold call_lua_sandbox
  by_cases hlt : args.length < 2
  · simp only [if_pos hlt]
    rcases args with _ | ⟨a, rest⟩ <;> simp [addDebug]
  · simp only [if_neg hlt, call_lua_main]
    rw [afterGuest_depth, (unpackRet_state _ _ _).1, h]
    simp [pushFrameLabel, (ensureLua_state ctx).1]

/-- C5 witness: a concrete depth-preserving guest error returns the
depth counter (here 3) to its pre-call value. -/
theorem C5_depth_invariant_witness :
    ((call_lua_sandbox ⟨fun s => s, fun s => s⟩ (fun c => (c, LuaRet.luaError "boom"))
        ["m", "f"] "d" ⟨true, 3, [], [], [], 1, 0⟩).2).lua_depth = 3 :=
  C5_depth_invariant ⟨fun s => s, fun s => s⟩ (fun c => (c, LuaRet.luaError "boom"))
    ["m", "f"] "d" ⟨true, 3, [], [], [], 1, 0⟩ (fun _ => rfl)

/-- C6: whenever the driver reaches the guest call, the expansion
call-stack it hands back equals the pre-call stack exactly, on success
and on every failure path; the guest (oracle) is any state transformer
that only ever extends the stack it receives (which the frame
callbacks and nested driver calls do).  Besides the diagnostics sink,
no other expander-visible state survives in mutated form. -/
theorem C6_stack_restored (env : Env) (oracle : Ctx → Ctx × LuaRet)
    (args : List String) (desc : String) (ctx : Ctx)
    (hlen : 2 ≤ args.length)
    (h : ∀ c : Ctx, c.expand_stack.IsSuffix ((oracle c).1).expand_stack) :
    ((call_lua_sandbox env oracle args desc ctx).2).expand_stack
      = ctx.expand_stack := by
  have hlt : ¬ args.length < 2 := by omega
  unfold call_lua_sandbox
  simp only [if_neg hlt, call_lua_main]
  rw [afterGuest_stack, (unpackRet_state _ _ _).2.1]
  obtain ⟨ext, hext⟩ := h (pushFrameLabel
    (pyStrip (env.expander (args.headD "")))
    (pyStrip (env.expander ((args.drop 1).headD "")))
    { ensureLua ctx with lua_depth := (ensureLua ctx).lua_depth + 1 })
  rw [← hext]
  simp only [pushFrameLabel, (ensureLua_state ctx).2.1]
  have hlb : ext ++ ("Lua:" ++ pyStrip (env.expander (args.headD "")) ++ ":"
        ++ pyStrip (env.expander ((args.drop 1).headD "")) ++ "()") :: ctx.expand_stack
      = (ext ++ [("Lua:" ++ pyStrip (env.expander (args.headD "")) ++ ":"
        ++ pyStrip (env.expander ((args.drop 1).headD "")) ++ "()")]) ++ ctx.expand_stack := by
    simp
  rw [hlb]
  have hlen2 : ((ext ++ [("Lua:" ++ pyStrip (env.expander (args.headD "")) ++ ":"
        ++ pyStrip (env.expander ((args.drop 1).headD "")) ++ "()")]) ++ ctx.expand_stack).length
      - ctx.expand_stack.length
      = (ext ++ [("Lua:" ++ pyStrip (env.expander (args.headD "")) ++ ":"
        ++ pyStrip (env.expander ((args.drop 1).headD "")) ++ "()")]).length := by
    simp
    omega
  rw [hlen2, List.drop_left]

/-- C6 witness: a concrete guest error that pushed two extra labels
still hands the stack back exactly. -/
theorem C6_stack_restored_witness :
    ((call_lua_sandbox ⟨fun s => s, fun s => s⟩
        (fun (c : Ctx) => ({ c with expand_stack := "x" :: "y" :: c.expand_stack },
                   LuaRet.luaError "boom"))
        ["m", "f"] "d" ⟨true, 0, ["page"], [], [], 1, 0⟩).2).expand_stack = ["page"] :=
  C6_stack_restored ⟨fun s => s, fun s => s⟩
    (fun (c : Ctx) => ({ c with expand_stack := "x" :: "y" :: c.expand_stack },
               LuaRet.luaError "boom"))
    ["m", "f"] "d" ⟨true, 0, ["page"], [], [], 1, 0⟩ (by decide)
    (fun c => ⟨["x", "y"], rfl⟩)

/-- C7 counterexample: a guest-error trace that contains the
translations-attestation marker but also the debug.error marker is not
swallowed — the driver renders an error banner instead of returning
the empty string, because the debug.error branch (line 657) is checked
first and falls through to the banner. -/
theorem C7_not_always_swallowed :
    (call_lua_sandbox ⟨fun s => s, fun s => s⟩
        (fun c => (c, LuaRet.luaError
          "\x27debug.error\x27 Translations must be for attested and approved "))
        ["m", "f"] "d" ⟨false, 0, [], [], [], 0, 0⟩).1
      = Except.ok
          "<strong class=\"error\">Lua execution error in Module:m function f</strong>" :=
  rfl

/-- C7 (amended): for every guest-runtime error whose rendered text
contains the translations-attestation marker and does not contain the
debug.error marker, the driver swallows the error entirely: it returns
the empty string, renders no banner, and writes nothing to either
diagnostics log.  (The unamended claim fails when the debug.error
marker is also present: see the counterexample.) -/
theorem C7_translations_swallowed (env : Env) (oracle : Ctx → Ctx × LuaRet)
    (args : List String) (desc trace : String) (ctx : Ctx)
    (hlen : 2 ≤ args.length)
    (hid : ∀ c : Ctx, oracle c = (c, LuaRet.luaError trace))
    (ht : pyIn "Translations must be for attested and approved " trace = true)
    (hd : pyIn "\x27debug.error\x27" trace = false) :
    (call_lua_sandbox env oracle args desc ctx).1 = Except.ok ""
    ∧ (call_lua_sandbox env oracle args desc ctx).2.errorLog = ctx.errorLog
    ∧ (call_lua_sandbox env oracle args desc ctx).2.debugLog = ctx.debugLog := by
  have hlt : ¬ args.length < 2 := by omega
  unfold call_lua_sandbox
  simp only [if_neg hlt, call_lua_main, hid]
  unfold unpackRet afterGuest
  simp only [Bool.false_eq_true, if_false]
  unfold classify_lua_error renderTV
  rw [hd, ht]
  simp only [Bool.false_eq_true, if_false, if_true]
  unfold ensureLua pushFrameLabel popTo
  split_ifs <;> simp

/-- C7 witness for the amended theorem at a concrete trace, arguments
and context. -/
theorem C7_translations_swallowed_witness :
    (call_lua_sandbox ⟨fun s => s, fun s => s⟩
        (fun c => (c, LuaRet.luaError
          "Module:x.lua:1: Translations must be for attested and approved senses"))
        ["m", "f"] "d" ⟨true, 0, ["page"], [], [], 1, 0⟩).1 = Except.ok "" :=
  (C7_translations_swallowed ⟨fun s => s, fun s => s⟩
    (fun c => (c, LuaRet.luaError
      "Module:x.lua:1: Translations must be for attested and approved senses"))
    ["m", "f"] "d"
    "Module:x.lua:1: Translations must be for attested and approved senses"
    ⟨true, 0, ["page"], [], [], 1, 0⟩ (by decide) (fun _ => rfl) (by decide)
    (by decide)).1

/-- C8: every guest-runtime error that is not swallowed by the two
content-specific false-positive rules produces a visible
strong-class-error banner naming the (escaped) module and function
names, and its message is the timeout variant exactly when the
rendered trace contains the timeout marker substring. -/
theorem C8_error_banner (env : Env) (oracle : Ctx → Ctx × LuaRet)
    (args : List String) (desc trace : String) (ctx : Ctx)
    (hlen : 2 ≤ args.length)
    (hor : ∀ c : Ctx, (oracle c).2 = LuaRet.luaError trace)
    (hns : lua_error_swallowed trace = false) :
    (call_lua_sandbox env oracle args desc ctx).1
      = Except.ok ("<strong class=\"error\">"
          ++ (if pyIn "Lua timeout error" trace = true then "Lua timeout error"
              else "Lua execution error")
          ++ " in Module:" ++ html_escape (pyStrip (env.expander (args.headD "")))
          ++ " function " ++ html_escape (pyStrip (env.expander ((args.drop 1).headD "")))
          ++ "</strong>") := by
  have hlt : ¬ args.length < 2 := by omega
  unfold call_lua_sandbox
  simp only [if_neg hlt, call_lua_main]
  rw [hor]
  unfold unpackRet afterGuest
  simp only [Bool.false_eq_true, if_false]
  unfold classify_lua_error renderTV luaErrorBanner
  unfold lua_error_swallowed at hns
  by_cases hdbg : pyIn "\x27debug.error\x27" trace = true
  · rw [hdbg]
    simp only [if_true]
  · rw [Bool.not_eq_true] at hdbg
    rw [hdbg] at hns ⊢
    simp only [Bool.not_false, Bool.true_and] at hns
    rw [Bool.or_eq_false_iff] at hns
    rw [hns.1, hns.2]
    simp only [Bool.false_eq_true, if_false]

/-- C8 witness: a concrete timeout-marked, non-swallowed error yields
the timeout banner. -/
theorem C8_error_banner_witness :
    (call_lua_sandbox ⟨fun s => s, fun s => s⟩
        (fun c => (c, LuaRet.luaError "boom Lua timeout error"))
        ["m", "f"] "d" ⟨true, 0, [], [], [], 1, 0⟩).1
      = Except.ok
          "<strong class=\"error\">Lua timeout error in Module:m function f</strong>" := by
  have h := C8_error_banner ⟨fun s => s, fun s => s⟩
    (fun c => (c, LuaRet.luaError "boom Lua timeout error"))
    ["m", "f"] "d" "boom Lua timeout error" ⟨true, 0, [], [], [], 1, 0⟩
    (by decide) (fun _ => rfl) (by decide)
  rw [h]
  rfl

/-- One of the five entity references matches at the head. -/
def hasPrefix5 (l : List Char) : Bool :=
  "&lt;".data.isPrefixOf l || "&gt;".data.isPrefixOf l || "&amp;".data.isPrefixOf l
  || "&quot;".data.isPrefixOf l || "&nbsp;".data.isPrefixOf l

/-- One of the five entity references occurs somewhere in the text. -/
def hasSelEntL (l : List Char) : Bool :=
  infixB "&lt;".data l || infixB "&gt;".data l || infixB "&amp;".data l
  || infixB "&quot;".data l || infixB "&nbsp;".data l

/-- String-level wrapper of hasSelEntL. -/
def hasSelEnt (t : String) : Bool := hasSelEntL t.data

theorem isPrefixOf_ent_lt (r : List Char) :
    "&lt;".data.isPrefixOf ('&' :: 'l' :: 't' :: ';' :: r) = true :=
  isPrefixOf_append_self "&lt;".data r

theorem isPrefixOf_ent_gt (r : List Char) :
    "&gt;".data.isPrefixOf ('&' :: 'g' :: 't' :: ';' :: r) = true :=
  isPrefixOf_append_self "&gt;".data r

theorem isPrefixOf_ent_amp (r : List Char) :
    "&amp;".data.isPrefixOf ('&' :: 'a' :: 'm' :: 'p' :: ';' :: r) = true :=
  isPrefixOf_append_self "&amp;".data r

theorem isPrefixOf_ent_quot (r : List Char) :
    "&quot;".data.isPrefixOf ('&' :: 'q' :: 'u' :: 'o' :: 't' :: ';' :: r) = true :=
  isPrefixOf_append_self "&quot;".data r

theorem isPrefixOf_ent_nbsp (r : List Char) :
    "&nbsp;".data.isPrefixOf ('&' :: 'n' :: 'b' :: 's' :: 'p' :: ';' :: r) = true :=
  isPrefixOf_append_self "&nbsp;".data r

theorem decodeSelF_fuel_irrel (fuel1 : Nat) :
    ∀ (fuel2 : Nat) (l : List Char), l.length ≤ fuel1 → l.length ≤ fuel2 →
      decodeSelF fuel1 l = decodeSelF fuel2 l := by
  induction fuel1 with
  | zero =>
      intro fuel2 l h1 _
      have hl : l = [] := List.eq_nil_of_length_eq_zero (Nat.le_zero.mp h1)
      subst hl
      cases fuel2 <;> rfl
  | succ f ih =>
      intro fuel2 l h1 h2
      cases l with
      | nil => cases fuel2 <;> rfl
      | cons c rest =>
          cases fuel2 with
          | zero => simp at h2
          | succ g =>
              have hr : rest.length ≤ f := by simp at h1; omega
              have hr2 : rest.length ≤ g := by simp at h2; omega
              have hd : ∀ k : Nat, (rest.drop k).length ≤ f := by
                intro k; simp [List.length_drop]; omega
              have hd2 : ∀ k : Nat, (rest.drop k).length ≤ g := by
                intro k; simp [List.length_drop]; omega
              simp only [decodeSelF]
              split_ifs
              · rw [ih g (rest.drop 3) (hd 3) (hd2 3)]
              · rw [ih g (rest.drop 3) (hd 3) (hd2 3)]
              · rw [ih g (rest.drop 4) (hd 4) (hd2 4)]
              · rw [ih g (rest.drop 5) (hd 5) (hd2 5)]
              · rw [ih g (rest.drop 5) (hd 5) (hd2 5)]
              · rw [ih g rest hr hr2]

theorem decodeSel_cons_of_not5 (c : Char) (rest : List Char)
    (h : hasPrefix5 (c :: rest) = false) :
    decodeSel (c :: rest) = c :: decodeSel rest := by
  simp only [hasPrefix5, Bool.or_eq_false_iff] at h
  obtain ⟨⟨⟨⟨h1, h2⟩, h3⟩, h4⟩, h5⟩ := h
  show decodeSelF (c :: rest).length (c :: rest) = _
  simp only [List.length_cons, decodeSelF, h1, h2, h3, h4, h5, Bool.false_eq_true,
    if_false]
  rfl

theorem isPrefixOf_false_of_ne_amp {c : Char} (hc : ¬ c = '&') {e : List Char}
    (rest : List Char) (he : ∃ t, e = '&' :: t) :
    e.isPrefixOf (c :: rest) = false := by
  obtain ⟨t, rfl⟩ := he
  cases hx : ('&' :: t).isPrefixOf (c :: rest) with
  | false => rfl
  | true =>
      exfalso
      simp [List.isPrefixOf] at hx
      exact hc hx.1.symm

theorem decodeSel_cons_ne_amp {c : Char} (hc : ¬ c = '&') (rest : List Char) :
    decodeSel (c :: rest) = c :: decodeSel rest := by
  apply decodeSel_cons_of_not5
  simp only [hasPrefix5, Bool.or_eq_false_iff]
  refine ⟨⟨⟨⟨?_, ?_⟩, ?_⟩, ?_⟩, ?_⟩ <;>
    exact isPrefixOf_false_of_ne_amp hc rest ⟨_, rfl⟩

theorem hasSelEntL_cons (c : Char) (rest : List Char) :
    hasSelEntL (c :: rest) = true
      ↔ (hasPrefix5 (c :: rest) = true ∨ hasSelEntL rest = true) := by
  simp only [hasSelEntL, hasPrefix5, infixB, Bool.or_eq_true]
  tauto

theorem decodeSel_of_no_ent (l : List Char) (h : hasSelEntL l = false) :
    decodeSel l = l := by
  induction l with
  | nil => rfl
  | cons c rest ih =>
      rw [← Bool.not_eq_true, hasSelEntL_cons, not_or] at h
      obtain ⟨h5, hr⟩ := h
      rw [Bool.not_eq_true] at h5 hr
      rw [decodeSel_cons_of_not5 c rest h5, ih hr]

theorem decodeSel_append_amp_free (p : List Char) (hp : ∀ c ∈ p, c ≠ '&')
    (tail : List Char) : decodeSel (p ++ tail) = p ++ decodeSel tail := by
  induction p with
  | nil => rfl
  | cons c pr ih =>
      rw [List.cons_append, decodeSel_cons_ne_amp (hp c (List.mem_cons_self c pr)),
        ih (fun d hd => hp d (List.mem_cons_of_mem c hd))]
      rw [List.cons_append]

theorem decodeSel_head_lt (r : List Char) :
    decodeSel ("&lt;".data ++ r) = '<' :: decodeSel r := by
  have h1 : ("&lt;".data ++ r).length = r.length + 4 := by simp
  show decodeSelF ("&lt;".data ++ r).length ("&lt;".data ++ r) = _
  rw [h1]
  show decodeSelF (r.length + 3 + 1) ('&' :: 'l' :: 't' :: ';' :: r) = _
  rw [decodeSelF, if_pos (isPrefixOf_ent_lt r)]
  show '<' :: decodeSelF (r.length + 3) r = _
  rw [decodeSelF_fuel_irrel (r.length + 3) r.length r (by omega) (Nat.le_refl _)]
  rfl

theorem decodeSel_head_gt (r : List Char) :
    decodeSel ("&gt;".data ++ r) = '>' :: decodeSel r := by
  have h1 : ("&gt;".data ++ r).length = r.length + 4 := by simp
  have hn1 : ¬ ("&lt;".data.isPrefixOf ('&' :: 'g' :: 't' :: ';' :: r) = true) := by
    simp [List.isPrefixOf]
  show decodeSelF ("&gt;".data ++ r).length ("&gt;".data ++ r) = _
  rw [h1]
  show decodeSelF (r.length + 3 + 1) ('&' :: 'g' :: 't' :: ';' :: r) = _
  rw [decodeSelF, if_neg hn1, if_pos (isPrefixOf_ent_gt r)]
  show '>' :: decodeSelF (r.length + 3) r = _
  rw [decodeSelF_fuel_irrel (r.length + 3) r.length r (by omega) (Nat.le_refl _)]
  rfl

theorem decodeSel_head_amp (r : List Char) :
    decodeSel ("&amp;".data ++ r) = '&' :: decodeSel r := by
  have h1 : ("&amp;".data ++ r).length = r.length + 5 := by simp
  have hn1 : ¬ ("&lt;".data.isPrefixOf ('&' :: 'a' :: 'm' :: 'p' :: ';' :: r) = true) := by
    simp [List.isPrefixOf]
  have hn2 : ¬ ("&gt;".data.isPrefixOf ('&' :: 'a' :: 'm' :: 'p' :: ';' :: r) = true) := by
    simp [List.isPrefixOf]
  show decodeSelF ("&amp;".data ++ r).length ("&amp;".data ++ r) = _
  rw [h1]
  show decodeSelF (r.length + 4 + 1) ('&' :: 'a' :: 'm' :: 'p' :: ';' :: r) = _
  rw [decodeSelF, if_neg hn1, if_neg hn2, if_pos (isPrefixOf_ent_amp r)]
  show '&' :: decodeSelF (r.length + 4) r = _
  rw [decodeSelF_fuel_irrel (r.length + 4) r.length r (by omega) (Nat.le_refl _)]
  rfl

theorem decodeSel_head_quot (r : List Char) :
    decodeSel ("&quot;".data ++ r) = '"' :: decodeSel r := by
  have h1 : ("&quot;".data ++ r).length = r.length + 6 := by simp
  have hn1 : ¬ ("&lt;".data.isPrefixOf ('&' :: 'q' :: 'u' :: 'o' :: 't' :: ';' :: r) = true) := by
    simp [List.isPrefixOf]
  have hn2 : ¬ ("&gt;".data.isPrefixOf ('&' :: 'q' :: 'u' :: 'o' :: 't' :: ';' :: r) = true) := by
    simp [List.isPrefixOf]
  have hn3 : ¬ ("&amp;".data.isPrefixOf ('&' :: 'q' :: 'u' :: 'o' :: 't' :: ';' :: r) = true) := by
    simp [List.isPrefixOf]
  show decodeSelF ("&quot;".data ++ r).length ("&quot;".data ++ r) = _
  rw [h1]
  show decodeSelF (r.length + 5 + 1) ('&' :: 'q' :: 'u' :: 'o' :: 't' :: ';' :: r) = _
  rw [decodeSelF, if_neg hn1, if_neg hn2, if_neg hn3, if_pos (isPrefixOf_ent_quot r)]
  show '"' :: decodeSelF (r.length + 5) r = _
  rw [decodeSelF_fuel_irrel (r.length + 5) r.length r (by omega) (Nat.le_refl _)]
  rfl

theorem decodeSel_head_nbsp (r : List Char) :
    decodeSel ("&nbsp;".data ++ r) = '\xa0' :: decodeSel r := by
  have h1 : ("&nbsp;".data ++ r).length = r.length + 6 := by simp
  have hn1 : ¬ ("&lt;".data.isPrefixOf ('&' :: 'n' :: 'b' :: 's' :: 'p' :: ';' :: r) = true) := by
    simp [List.isPrefixOf]
  have hn2 : ¬ ("&gt;".data.isPrefixOf ('&' :: 'n' :: 'b' :: 's' :: 'p' :: ';' :: r) = true) := by
    simp [List.isPrefixOf]
  have hn3 : ¬ ("&amp;".data.isPrefixOf ('&' :: 'n' :: 'b' :: 's' :: 'p' :: ';' :: r) = true) := by
    simp [List.isPrefixOf]
  have hn4 : ¬ ("&quot;".data.isPrefixOf ('&' :: 'n' :: 'b' :: 's' :: 'p' :: ';' :: r) = true) := by
    simp [List.isPrefixOf]
  show decodeSelF ("&nbsp;".data ++ r).length ("&nbsp;".data ++ r) = _
  rw [h1]
  show decodeSelF (r.length + 5 + 1) ('&' :: 'n' :: 'b' :: 's' :: 'p' :: ';' :: r) = _
  rw [decodeSelF, if_neg hn1, if_neg hn2, if_neg hn3, if_neg hn4,
    if_pos (isPrefixOf_ent_nbsp r)]
  show '\xa0' :: decodeSelF (r.length + 5) r = _
  rw [decodeSelF_fuel_irrel (r.length + 5) r.length r (by omega) (Nat.le_refl _)]
  rfl

/-- C10: with decodeNamedEntities unset, mw.text.decode replaces
exactly the five entity references &lt; &gt; &amp; &quot; &nbsp; with
their characters — any text free of those five sequences (other named
or numeric entities included) is returned unchanged, and each of the
five is decoded wherever it occurs after an ampersand-free prefix —
while with the flag set it delegates to full HTML unescaping. -/
theorem C10_mw_text_decode_selective (hu : String → String) (t p r : String)
    (ht : hasSelEnt t = false)
    (hp : ∀ c ∈ p.data, c ≠ '&') :
    (∀ u : String, mw_text_decode hu u true = hu u)
    ∧ mw_text_decode hu t false = t
    ∧ mw_text_decode hu (p ++ "&lt;" ++ r) false = p ++ "<" ++ mw_text_decode hu r false
    ∧ mw_text_decode hu (p ++ "&gt;" ++ r) false = p ++ ">" ++ mw_text_decode hu r false
    ∧ mw_text_decode hu (p ++ "&amp;" ++ r) false = p ++ "&" ++ mw_text_decode hu r false
    ∧ mw_text_decode hu (p ++ "&quot;" ++ r) false
        = p ++ "\"" ++ mw_text_decode hu r false
    ∧ mw_text_decode hu (p ++ "&nbsp;" ++ r) false
        = p ++ "\xa0" ++ mw_text_decode hu r false := by
  refine ⟨fun u => rfl, ?_, ?_, ?_, ?_, ?_, ?_⟩
  · show String.mk (decodeSel t.data) = t
    rw [decodeSel_of_no_ent t.data ht]
  all_goals
    show String.mk (decodeSel (p ++ _ ++ r).data) = _
  all_goals
    apply String.ext
  all_goals
    simp only [String.data_append, List.append_assoc]
  · rw [decodeSel_append_amp_free p.data hp, decodeSel_head_lt]
    rfl
  · rw [decodeSel_append_amp_free p.data hp, decodeSel_head_gt]
    rfl
  · rw [decodeSel_append_amp_free p.data hp, decodeSel_head_amp]
    rfl
  · rw [decodeSel_append_amp_free p.data hp, decodeSel_head_quot]
    rfl
  · rw [decodeSel_append_amp_free p.data hp, decodeSel_head_nbsp]
    rfl

/-- C10 witness: a text containing only other HTML entities is left
unchanged, and a concrete occurrence of each selected entity decodes. -/
theorem C10_mw_text_decode_selective_witness :
    mw_text_decode (fun s => s) "&copy;&#60;x" false = "&copy;&#60;x"
    ∧ mw_text_decode (fun s => s) ("a" ++ "&lt;" ++ "b") false
        = "a" ++ "<" ++ mw_text_decode (fun s => s) "b" false := by
  have h := C10_mw_text_decode_selective (fun s => s) "&copy;&#60;x" "a" "b"
    (by decide) (by decide)
  exact ⟨h.2.1, h.2.2.1⟩

/-! ## C4: frame-argument key assignment -/

theorem updAssoc_mem {α β : Type} [DecidableEq α] (d : List (α × β)) (k : α) (v : β)
    (m : α) (h : (updAssoc d k v).any (fun p => p.1 = m) = true) :
    d.any (fun p => p.1 = m) = true ∨ m = k := by
  unfold updAssoc at h
  split_ifs at h with hk
  · rw [List.any_map] at h
    left
    rw [List.any_eq_true] at h ⊢
    obtain ⟨p, hp, he⟩ := h
    refine ⟨p, hp, ?_⟩
    by_cases hpk : p.1 = k
    · simp only [hpk, if_true, Function.comp] at he
      simp only [decide_eq_true_eq] at he ⊢
      rw [hpk]
      exact he
    · simp only [hpk, if_false, Function.comp] at he
      simpa using he
  · rw [List.any_append] at h
    rcases Bool.or_eq_true_iff.mp h with h1 | h2
    · exact Or.inl h1
    · right
      have hkm : k = m := by simpa using h2
      exact hkm.symm

/-- Invariant of the positional-argument loop: every integer key
already in the dict is below the running counter. -/
def intKeyBound (st : FrameSt) : Prop :=
  ∀ n, st.dict.any (fun p => p.1 = FKey.num n) = true → n < st.num

theorem mfStep_bound (hu : String → String) (st : FrameSt) (a : String)
    (h : intKeyBound st) : intKeyBound (mfStep hu st a) := by
  unfold mfStep
  cases hm : matchNamed a with
  | none =>
      intro n hn
      simp only at hn ⊢
      rcases updAssoc_mem _ _ _ _ hn with h1 | h2
      · have := h n h1
        omega
      · have : n = st.num := by injection h2
        omega
  | some kv =>
      obtain ⟨k, v⟩ := kv
      by_cases hd : pyIsdigit k
      · simp only [hd, if_true]
        intro n hn
        simp only at hn ⊢
        rcases updAssoc_mem _ _ _ _ hn with h1 | h2
        · have := h n h1
          split_ifs <;> omega
        · injection h2 with hnK
          subst hnK
          split_ifs <;> omega
      · simp only [hd, if_false]
        intro n hn
        try simp only at hn ⊢
        rcases updAssoc_mem _ _ _ _ hn with h1 | h2
        · exact h n h1
        · exact absurd h2 (by simp)

theorem posFreshCheck_of_bound (hu : String → String) :
    ∀ (args : List String) (st : FrameSt), intKeyBound st →
      posFreshCheck hu st args = true := by
  intro args
  induction args with
  | nil => intro st _; rfl
  | cons a rest ih =>
      intro st h
      unfold posFreshCheck
      rw [Bool.and_eq_true]
      constructor
      · cases hm : matchNamed a with
        | none =>
            simp only
            cases hx : st.dict.any (fun p => p.1 = FKey.num st.num) with
            | false => rfl
            | true => exact absurd (h st.num hx) (by omega)
        | some kv => rfl
      · exact ih (mfStep hu st a) (mfStep_bound hu st a h)

/-- C4 counterexample: keys do collide.  In ["b", "1=a"] the unnamed
argument "b" takes key 1 first, and the later explicit numeric key 1
overwrites it: the built dict is the single entry 1 → "a" and the
value "b" is lost (html.unescape instantiated with a function that is
the identity on these plain values, as the stdlib one is). -/
theorem C4_explicit_key_overwrites :
    make_frame_args (fun s => s) ["b", "1=a"] = [(FKey.num 1, "a")] := rfl

/-- C4 (amended): unnamed positional arguments receive 1-based
sequential integer keys; the positional counter skips past any integer
already used as an explicit numeric key, so an unnamed argument never
collides with an existing entry (posFreshCheck); explicit numeric keys
are clamped to 1000; and ["a", "k=v", "x"] yields exactly
{1:"a", "k":"v", 2:"x"}.  What fails in the original claim is only the
converse direction: a later explicit numeric key can overwrite an
earlier entry (see the counterexample). -/
theorem C4_frame_args (hu : String → String)
    (h1 : hu "a" = "a") (h2 : hu "v" = "v") (h3 : hu "x" = "x")
    (h4 : hu "b" = "b") (h5 : hu "c" = "c") (h6 : hu "z" = "z") :
    make_frame_args hu ["a", "k=v", "x"]
      = [(FKey.num 1, "a"), (FKey.str "k", "v"), (FKey.num 2, "x")]
    ∧ make_frame_args hu ["2=a", "b", "c"]
      = [(FKey.num 2, "a"), (FKey.num 3, "b"), (FKey.num 4, "c")]
    ∧ make_frame_args hu ["1001=z"] = [(FKey.num 1000, "z")]
    ∧ ∀ args : List String, posFreshCheck hu ⟨[], 1⟩ args = true := by
  refine ⟨?_, ?_, ?_, ?_⟩
  · have e : make_frame_args hu ["a", "k=v", "x"]
        = [(FKey.num 1, hu "a"), (FKey.str "k", hu "v"), (FKey.num 2, hu "x")] := rfl
    rw [e, h1, h2, h3]
  · have e : make_frame_args hu ["2=a", "b", "c"]
        = [(FKey.num 2, hu "a"), (FKey.num 3, hu "b"), (FKey.num 4, hu "c")] := rfl
    rw [e, h1, h4, h5]
  · have e : make_frame_args hu ["1001=z"] = [(FKey.num 1000, hu "z")] := rfl
    rw [e, h6]
  · intro args
    exact posFreshCheck_of_bound hu args ⟨[], 1⟩ (fun n hn => by simp at hn)

/-- C4 witness for the amended theorem with html.unescape instantiated
as the identity on the plain values involved. -/
theorem C4_frame_args_witness :
    make_frame_args (fun s => s) ["a", "k=v", "x"]
      = [(FKey.num 1, "a"), (FKey.str "k", "v"), (FKey.num 2, "x")]
    ∧ posFreshCheck (fun s => s) ⟨[], 1⟩ ["b", "1=a"] = true := by
  have h := C4_frame_args (fun s => s) rfl rfl rfl rfl rfl rfl
  exact ⟨h.1, h.2.2.2 ["b", "1=a"]⟩

/-! ## C3: decimal print/parse round trip -/

theorem digCh_isDig {d : Nat} (h : d < 10) : isDig (digCh d) = true := by
  interval_cases d <;> decide

theorem digVal_digCh {d : Nat} (h : d < 10) : digVal (digCh d) = d := by
  interval_cases d <;> decide

theorem parseDigits_append (xs : List Char) (c : Char) :
    parseDigits (xs ++ [c]) = parseDigits xs * 10 + digVal c := by
  unfold parseDigits
  rw [List.foldl_append]
  rfl

theorem natStrAux_parse {fuel : Nat} : ∀ {n : Nat}, n < fuel →
    parseDigits (natStrAux fuel n) = n := by
  induction fuel with
  | zero => intro n h; omega
  | succ f ih =>
      intro n h
      rw [natStrAux]
      split_ifs with h10
      · show parseDigits ([] ++ [digCh n]) = n
        rw [parseDigits_append]
        show 0 * 10 + digVal (digCh n) = n
        rw [digVal_digCh h10]
        omega
      · rw [parseDigits_append, ih (by omega), digVal_digCh (Nat.mod_lt n (by omega))]
        omega

theorem natStrAux_ne_nil {fuel n : Nat} (h : n < fuel) : natStrAux fuel n ≠ [] := by
  cases fuel with
  | zero => omega
  | succ f =>
      rw [natStrAux]
      split_ifs
      · simp
      · simp

theorem natStrAux_all_dig {fuel : Nat} : ∀ {n : Nat}, n < fuel →
    (natStrAux fuel n).all isDig = true := by
  induction fuel with
  | zero => intro n h; omega
  | succ f ih =>
      intro n h
      rw [natStrAux]
      split_ifs with h10
      · simp [digCh_isDig h10]
      · rw [List.all_append]
        rw [ih (by omega)]
        simp [digCh_isDig (Nat.mod_lt n (by omega))]

theorem pyStrNat_isdigit (n : Nat) : pyIsdigit (pyStrNat n) = true := by
  unfold pyIsdigit pyStrNat pyIsdigitL
  rw [Bool.and_eq_true]
  constructor
  · simp [List.isEmpty_iff, natStrAux_ne_nil (Nat.lt_succ_self n)]
  · exact natStrAux_all_dig (Nat.lt_succ_self n)

theorem pyStrNat_parse (n : Nat) : parseDigits (pyStrNat n).data = n :=
  natStrAux_parse (Nat.lt_succ_self n)

theorem pyStrInt_nonneg {k : Int} (h : 0 ≤ k) : pyStrInt k = pyStrNat k.toNat := by
  unfold pyStrInt
  rw [if_neg (by omega)]

theorem pyStrInt_isdigit_of_nonneg {k : Int} (h : 0 ≤ k) :
    pyIsdigit (pyStrInt k) = true := by
  rw [pyStrInt_nonneg h]
  exact pyStrNat_isdigit k.toNat

theorem pyStrInt_parse_of_nonneg {k : Int} (h : 0 ≤ k) :
    (parseDigits (pyStrInt k).data : Int) = k := by
  rw [pyStrInt_nonneg h, pyStrNat_parse]
  omega

theorem pyStrInt_neg_data {k : Int} (h : k < 0) :
    (pyStrInt k).data = '-' :: (pyStrNat (-k).toNat).data := by
  unfold pyStrInt
  rw [if_pos h]
  rfl

theorem pyStrInt_isdigit_of_neg {k : Int} (h : k < 0) :
    pyIsdigit (pyStrInt k) = false := by
  unfold pyIsdigit pyIsdigitL
  rw [pyStrInt_neg_data h]
  simp [isDig]

theorem pyStrNat_head_dig (n : Nat) :
    ∀ c cs, (pyStrNat n).data = c :: cs → isDig c = true := by
  intro c cs hc
  have hall := natStrAux_all_dig (Nat.lt_succ_self n)
  show _
  unfold pyStrNat at hc
  rw [show (⟨natStrAux (n + 1) n⟩ : String).data = natStrAux (n + 1) n from rfl] at hc
  rw [hc] at hall
  simp [List.all_cons, Bool.and_eq_true] at hall
  exact hall.1

theorem pyStrInt_inj {k1 k2 : Int} (h : pyStrInt k1 = pyStrInt k2) : k1 = k2 := by
  rcases lt_or_le k1 0 with hn1 | hp1 <;> rcases lt_or_le k2 0 with hn2 | hp2
  · have hd := congrArg String.data h
    rw [pyStrInt_neg_data hn1, pyStrInt_neg_data hn2] at hd
    have hd2 : (pyStrNat (-k1).toNat).data = (pyStrNat (-k2).toNat).data := by
      injection hd
    have := congrArg parseDigits hd2
    rw [pyStrNat_parse, pyStrNat_parse] at this
    omega
  · exfalso
    have hb := pyStrInt_isdigit_of_neg hn1
    rw [h, pyStrInt_isdigit_of_nonneg hp2] at hb
    cases hb
  · exfalso
    have hb := pyStrInt_isdigit_of_neg hn2
    rw [← h, pyStrInt_isdigit_of_nonneg hp1] at hb
    cases hb
  · have := congrArg (fun s => parseDigits s.data) h
    simp only at this
    rw [show parseDigits (pyStrInt k1).data
        = ((parseDigits (pyStrInt k1).data : Int)).toNat from rfl] at this
    have e1 := pyStrInt_parse_of_nonneg hp1
    have e2 := pyStrInt_parse_of_nonneg hp2
    omega

/-! ## C3: dict, map-shape, scalar and permutation lemmas -/

theorem updAssoc_of_not_mem {α β : Type} [DecidableEq α] (d : List (α × β))
    (k : α) (v : β) (h : k ∉ d.map Prod.fst) : updAssoc d k v = d ++ [(k, v)] := by
  unfold updAssoc
  rw [if_neg]
  intro hx
  rw [List.any_eq_true] at hx
  obtain ⟨p, hp, he⟩ := hx
  exact h (List.mem_map.mpr ⟨p, hp, by simpa using he⟩)

theorem dictFrom_aux {α β : Type} [DecidableEq α] :
    ∀ (l acc : List (α × β)), (acc.map Prod.fst ++ l.map Prod.fst).Nodup →
      l.foldl (fun d p => updAssoc d p.1 p.2) acc = acc ++ l := by
  intro l
  induction l with
  | nil => intro acc _; simp
  | cons p rest ih =>
      intro acc h
      obtain ⟨k, v⟩ := p
      rw [List.foldl_cons]
      have hk : k ∉ acc.map Prod.fst := by
        intro hx
        rw [List.map_cons] at h
        have := (List.nodup_append.mp h).2.2
        exact this hx (by simp)
      rw [updAssoc_of_not_mem acc k v hk]
      rw [ih (acc ++ [(k, v)]) (by
        rw [List.map_cons] at h
        simp only [List.map_append]
        have h2 : (acc.map Prod.fst ++ [k]) ++ rest.map Prod.fst
            = acc.map Prod.fst ++ (k :: rest.map Prod.fst) := by simp
        rw [show ([(k, v)].map Prod.fst : List α) = [k] from rfl, h2]
        exact h)]
      simp

theorem dictFrom_eq_self {α β : Type} [DecidableEq α] (l : List (α × β))
    (h : (l.map Prod.fst).Nodup) : dictFrom l = l := by
  unfold dictFrom
  rw [dictFrom_aux l [] (by simpa using h)]
  simp

theorem jsonencO_eq_map (flags : Nat) (entries : List (LuaKey × LuaVal)) :
    jsonencO flags entries
      = entries.map (fun p => (pyStrKey p.1, jsonencR flags p.2)) := by
  induction entries with
  | nil => rfl
  | cons p rest ih => obtain ⟨k, v⟩ := p; rw [jsonencO, ih]; rfl

theorem jsondecO_eq_map (flags : Nat) (kvs : List (String × JVal)) :
    jsondecO flags kvs = kvs.map (fun p => (p.1, jsondecR flags p.2)) := by
  induction kvs with
  | nil => rfl
  | cons p rest ih => obtain ⟨k, v⟩ := p; rw [jsondecO, ih]; rfl

theorem sortKeysJO_eq_map (kvs : List (String × JVal)) :
    sortKeysJO kvs = kvs.map (fun p => (p.1, sortKeysJ p.2)) := by
  induction kvs with
  | nil => rfl
  | cons p rest ih => obtain ⟨k, v⟩ := p; rw [sortKeysJO, ih]; rfl

/-- A non-nil scalar guest value (a Lua table never stores nil). -/
def isScalarNN : LuaVal → Bool
  | .str _ => true
  | .num _ => true
  | .bool _ => true
  | _ => false

theorem scalar_enc_dec {v : LuaVal} (h : isScalarNN v = true) :
    jsondecR 0 (jsonencR 0 v) = v := by
  cases v with
  | str s => rfl
  | num n => rfl
  | bool b => rfl
  | nil => simp [isScalarNN] at h
  | table es => simp [isScalarNN] at h

theorem scalar_sortK {v : LuaVal} (h : isScalarNN v = true) :
    sortKeysJ (jsonencR 0 v) = jsonencR 0 v := by
  cases v with
  | str s => rfl
  | num n => rfl
  | bool b => rfl
  | nil => simp [isScalarNN] at h
  | table es => simp [isScalarNN] at h

theorem exactRunI_perm {l1 l2 : List Int} (h : l1.Perm l2) :
    exactRunI l1 = exactRunI l2 := by
  unfold exactRunI pySortedInt
  congr 1
  exact List.eq_of_perm_of_sorted
    ((List.perm_insertionSort _ l1).trans (h.trans (List.perm_insertionSort _ l2).symm))
    (List.sorted_insertionSort _ l1) (List.sorted_insertionSort _ l2)

/-- The conversion decision of the encoder as a single Boolean. -/
theorem jsonencR_table (entries : List (LuaKey × LuaVal)) :
    jsonencR 0 (.table entries)
      = (if (allIntKeysT entries && exactRunI (intKeysT entries)) = true
         then .arr (jsonencA 0 entries)
         else .obj (dictFrom (jsonencO 0 entries))) := by
  rw [jsonencR]
  cases hall : allIntKeysT entries <;> cases hrun : exactRunI (intKeysT entries) <;>
    simp [hall, hrun]

/-- All branches of the decoder's dict case build the same table
(luaexec.py lines 148-156 return lua.table_from(x) in each branch). -/
theorem jsondecR_obj (kvs : List (String × JVal)) :
    jsondecR 0 (.obj kvs) = .table (coerceKeys (jsondecO 0 kvs)) := by
  rw [jsondecR]
  split_ifs with h1
  · simp at h1
  · show (if (!allIntKeysT (coerceKeys (jsondecO 0 kvs))) = true
        then LuaVal.table (coerceKeys (jsondecO 0 kvs))
        else if (!exactRunI (intKeysT (coerceKeys (jsondecO 0 kvs)))) = true
        then LuaVal.table (coerceKeys (jsondecO 0 kvs))
        else LuaVal.table (coerceKeys (jsondecO 0 kvs)))
      = LuaVal.table (coerceKeys (jsondecO 0 kvs))
    split_ifs <;> rfl

theorem allIntKeysT_keys : ∀ entries : List (LuaKey × LuaVal),
    allIntKeysT entries = true →
    entries.map (fun p => pyStrKey p.1) = (intKeysT entries).map pyStrInt
  | [], _ => rfl
  | (LuaKey.num n, v) :: rest, h => by
      have hr : allIntKeysT rest = true := by
        simpa [allIntKeysT, List.all_cons] using h
      show pyStrKey (LuaKey.num n) :: rest.map (fun p => pyStrKey p.1)
        = pyStrInt n :: (intKeysT rest).map pyStrInt
      rw [allIntKeysT_keys rest hr]
      rfl
  | (LuaKey.str s, v) :: rest, h => by
      exfalso
      simp [allIntKeysT, List.all_cons] at h

theorem encode_nonrun (entries : List (LuaKey × LuaVal))
    (hall : allIntKeysT entries = true)
    (hrun : exactRunI (intKeysT entries) = false)
    (hnd : (intKeysT entries).Nodup)
    (hval : ∀ p ∈ entries, isScalarNN p.2 = true) :
    mw_text_jsonencode 0 (.table entries)
      = .obj (sortObjKeys (entries.map (fun p => (pyStrKey p.1, jsonencR 0 p.2)))) := by
  unfold mw_text_jsonencode
  rw [jsonencR_table, hall, hrun]
  simp only [Bool.and_false, Bool.false_eq_true, if_false]
  rw [jsonencO_eq_map]
  rw [dictFrom_eq_self _ (by
    rw [List.map_map]
    show (entries.map (fun p => pyStrKey p.1)).Nodup
    rw [allIntKeysT_keys entries hall]
    exact hnd.map (fun a b hab => pyStrInt_inj hab))]
  rw [sortKeysJ, sortKeysJO_eq_map, List.map_map]
  congr 1
  congr 1
  apply List.map_congr_left
  intro p hp
  show (pyStrKey p.1, sortKeysJ (jsonencR 0 p.2)) = (pyStrKey p.1, jsonencR 0 p.2)
  rw [scalar_sortK (hval p hp)]

theorem intKeysT_map_num (l : List (String × LuaVal)) (g : String × LuaVal → Int) :
    intKeysT (l.map (fun p => (LuaKey.num (g p), p.2))) = l.map g := by
  induction l with
  | nil => rfl
  | cons p rest ih =>
      show g p :: intKeysT (rest.map _) = g p :: rest.map g
      rw [ih]

theorem decode_encode_nonrun (entries : List (LuaKey × LuaVal))
    (hall : allIntKeysT entries = true)
    (hrun : exactRunI (intKeysT entries) = false)
    (hnd : (intKeysT entries).Nodup)
    (hval : ∀ p ∈ entries, isScalarNN p.2 = true) :
    ∃ es, mw_text_jsondecode 0 (mw_text_jsonencode 0 (.table entries)) = .table es
      ∧ (allIntKeysT es && exactRunI (intKeysT es)) = false := by
  rw [encode_nonrun entries hall hrun hnd hval]
  unfold mw_text_jsondecode
  rw [jsondecR_obj]
  refine ⟨_, rfl, ?_⟩
  set L := entries.map (fun p => (pyStrKey p.1, jsonencR 0 p.2)) with hL
  set S := sortObjKeys L with hS
  set D := jsondecO 0 S with hD
  have hperm : S.Perm L := List.perm_insertionSort _ L
  have hDkeys : (D.map Prod.fst).Perm ((intKeysT entries).map pyStrInt) := by
    rw [hD, jsondecO_eq_map, List.map_map]
    have h1 : (S.map Prod.fst).Perm (L.map Prod.fst) := hperm.map Prod.fst
    have h2 : L.map Prod.fst = (intKeysT entries).map pyStrInt := by
      rw [hL, List.map_map]
      exact allIntKeysT_keys entries hall
    rw [← h2]
    exact h1
  by_cases hneg : ∀ k ∈ intKeysT entries, 0 ≤ k
  · have hdig : ∀ p ∈ D, pyIsdigit p.1 = true := by
      intro p hp
      have hm : p.1 ∈ D.map Prod.fst := List.mem_map_of_mem _ hp
      obtain ⟨k, hk, he⟩ := List.mem_map.mp (hDkeys.subset hm)
      rw [← he]
      exact pyStrInt_isdigit_of_nonneg (hneg k hk)
    have hfilter1 : D.filter (fun p => !(pyIsdigit p.1)) = [] := by
      rw [List.filter_eq_nil_iff]
      intro p hp
      simp [hdig p hp]
    have hfilter2 : D.filter (fun p => pyIsdigit p.1) = D :=
      List.filter_eq_self.mpr (fun p hp => by simp [hdig p hp])
    show (allIntKeysT (coerceKeys D) && exactRunI (intKeysT (coerceKeys D))) = false
    unfold coerceKeys
    rw [hfilter1, hfilter2]
    simp only [List.map_nil, List.nil_append]
    have hKd : ((D.map (fun p => (LuaKey.num (parseDigits p.1.data), p.2))).map
        Prod.fst).Perm ((intKeysT entries).map (fun k => LuaKey.num k)) := by
      rw [List.map_map]
      have h4 := hDkeys.map (fun s => LuaKey.num (parseDigits s.data : Int))
      rw [List.map_map, List.map_map] at h4
      have h5 : (intKeysT entries).map
            ((fun s => LuaKey.num (parseDigits s.data : Int)) ∘ pyStrInt)
          = (intKeysT entries).map (fun k => LuaKey.num k) := by
        apply List.map_congr_left
        intro k hk
        show LuaKey.num (parseDigits (pyStrInt k).data : Int) = LuaKey.num k
        rw [pyStrInt_parse_of_nonneg (hneg k hk)]
      rw [← h5]
      exact h4
    have hDMnodup : ((D.map (fun p => (LuaKey.num (parseDigits p.1.data), p.2))).map
        Prod.fst).Nodup := by
      rw [List.Perm.nodup_iff hKd]
      exact hnd.map (fun a b hab => by injection hab)
    rw [dictFrom_eq_self _ hDMnodup]
    have hIK : (intKeysT (D.map (fun p =>
        (LuaKey.num (parseDigits p.1.data), p.2)))).Perm (intKeysT entries) := by
      rw [intKeysT_map_num D (fun p => (parseDigits p.1.data : Int))]
      have h6 := hDkeys.map (fun s => (parseDigits s.data : Int))
      rw [List.map_map, List.map_map] at h6
      have h7 : (intKeysT entries).map ((fun s => (parseDigits s.data : Int)) ∘ pyStrInt)
          = intKeysT entries := by
        have : (intKeysT entries).map ((fun s => (parseDigits s.data : Int)) ∘ pyStrInt)
            = (intKeysT entries).map (fun k => k) := by
          apply List.map_congr_left
          intro k hk
          exact pyStrInt_parse_of_nonneg (hneg k hk)
        rw [this, List.map_id']
      rw [h7] at h6
      exact h6
    rw [exactRunI_perm hIK, hrun]
    simp
  · push_neg at hneg
    obtain ⟨k, hk, hkneg⟩ := hneg
    have hmem : pyStrInt k ∈ D.map Prod.fst :=
      hDkeys.mem_iff.mpr (List.mem_map_of_mem _ hk)
    obtain ⟨p, hp, hpk⟩ := List.mem_map.mp hmem
    have hpd : pyIsdigit p.1 = false := by
      rw [hpk]
      exact pyStrInt_isdigit_of_neg (by omega)
    have hmemf : p ∈ D.filter (fun q => !(pyIsdigit q.1)) :=
      List.mem_filter.mpr ⟨hp, by simp [hpd]⟩
    have hmemes : (LuaKey.str p.1, p.2) ∈ coerceKeys D := by
      unfold coerceKeys
      apply List.mem_append_left
      exact List.mem_map_of_mem _ hmemf
    cases hres : allIntKeysT (coerceKeys D) with
    | false => simp [hres]
    | true =>
        exfalso
        have hone := List.all_eq_true.mp hres _ hmemes
        simp at hone

theorem encode_arr_iff (es : List (LuaKey × LuaVal)) :
    (∃ xs, mw_text_jsonencode 0 (.table es) = .arr xs)
      ↔ (allIntKeysT es && exactRunI (intKeysT es)) = true := by
  unfold mw_text_jsonencode
  rw [jsonencR_table]
  cases hcond : (allIntKeysT es && exactRunI (intKeysT es)) with
  | true =>
      refine ⟨fun _ => rfl, fun _ => ⟨sortKeysJL (jsonencA 0 es), ?_⟩⟩
      rfl
  | false =>
      constructor
      · rintro ⟨xs, hx⟩
        have hx2 : JVal.obj (sortObjKeys (sortKeysJO (dictFrom (jsonencO 0 es))))
            = JVal.arr xs := hx
        cases hx2
      · intro hx
        cases hx

theorem roundtrip_123 {a b c : LuaVal} (ha : isScalarNN a = true)
    (hb : isScalarNN b = true) (hc : isScalarNN c = true) :
    mw_text_jsonencode 0 (.table [(.num 1, a), (.num 2, b), (.num 3, c)])
      = .arr [jsonencR 0 a, jsonencR 0 b, jsonencR 0 c]
    ∧ mw_text_jsondecode 0
        (mw_text_jsonencode 0 (.table [(.num 1, a), (.num 2, b), (.num 3, c)]))
      = .table [(.num 1, a), (.num 2, b), (.num 3, c)] := by
  have e1 : mw_text_jsonencode 0 (.table [(.num 1, a), (.num 2, b), (.num 3, c)])
      = .arr [sortKeysJ (jsonencR 0 a), sortKeysJ (jsonencR 0 b),
              sortKeysJ (jsonencR 0 c)] := rfl
  rw [e1, scalar_sortK ha, scalar_sortK hb, scalar_sortK hc]
  refine ⟨rfl, ?_⟩
  have e2 : mw_text_jsondecode 0 (JVal.arr [jsonencR 0 a, jsonencR 0 b, jsonencR 0 c])
      = .table [(.num 1, jsondecR 0 (jsonencR 0 a)), (.num 2, jsondecR 0 (jsonencR 0 b)),
                (.num 3, jsondecR 0 (jsonencR 0 c))] := rfl
  rw [e2, scalar_enc_dec ha, scalar_enc_dec hb, scalar_enc_dec hc]

/-- C3: mw.text.jsonEncode emits a JSON array for a guest table exactly
when all keys are integers whose sorted list is the exact run {1..N}
(part i); consequently a table with keys exactly {1,2,3} encodes to a
3-element array and decodes back to the same 3-entry table with value
order preserved (part ii); and a table whose integer keys are not an
exact run encodes to a JSON object — never an array — and decodes back
to a table that is again not in exact-run array form (part iii).
Values are restricted to non-nil scalars (a Lua table cannot store
nil, and nested tables are irrelevant to the key discipline); keys of
a table are distinct by construction (Nodup). -/
theorem C3_json_roundtrip (a b c : LuaVal) (entries : List (LuaKey × LuaVal))
    (ha : isScalarNN a = true) (hb : isScalarNN b = true) (hc : isScalarNN c = true)
    (hall : allIntKeysT entries = true)
    (hrun : exactRunI (intKeysT entries) = false)
    (hnd : (intKeysT entries).Nodup)
    (hval : ∀ p ∈ entries, isScalarNN p.2 = true) :
    (∀ es : List (LuaKey × LuaVal), (∃ xs, mw_text_jsonencode 0 (.table es) = .arr xs)
        ↔ (allIntKeysT es && exactRunI (intKeysT es)) = true)
    ∧ mw_text_jsonencode 0 (.table [(.num 1, a), (.num 2, b), (.num 3, c)])
        = .arr [jsonencR 0 a, jsonencR 0 b, jsonencR 0 c]
    ∧ mw_text_jsondecode 0
        (mw_text_jsonencode 0 (.table [(.num 1, a), (.num 2, b), (.num 3, c)]))
        = .table [(.num 1, a), (.num 2, b), (.num 3, c)]
    ∧ (∃ kvs, mw_text_jsonencode 0 (.table entries) = .obj kvs)
    ∧ (∃ es, mw_text_jsondecode 0 (mw_text_jsonencode 0 (.table entries)) = .table es
        ∧ (allIntKeysT es && exactRunI (intKeysT es)) = false) :=
  ⟨encode_arr_iff,
   (roundtrip_123 ha hb hc).1,
   (roundtrip_123 ha hb hc).2,
   ⟨_, encode_nonrun entries hall hrun hnd hval⟩,
   decode_encode_nonrun entries hall hrun hnd hval⟩

/-- C3 witness: the concrete table {1:"x", 2:5, 3:true} round-trips in
order, and the concrete non-run table {1:"u", 3:"w"} encodes as an
object. -/
theorem C3_json_roundtrip_witness :
    mw_text_jsondecode 0 (mw_text_jsonencode 0
        (.table [(.num 1, .str "x"), (.num 2, .num 5), (.num 3, .bool true)]))
      = .table [(.num 1, .str "x"), (.num 2, .num 5), (.num 3, .bool true)]
    ∧ ∃ kvs, mw_text_jsonencode 0
        (.table [(.num 1, .str "u"), (.num 3, .str "w")]) = .obj kvs := by
  have h := C3_json_roundtrip (.str "x") (.num 5) (.bool true)
    [(.num 1, .str "u"), (.num 3, .str "w")] rfl rfl rfl rfl (by decide) (by decide)
    (by decide)
  exact ⟨h.2.2.1, h.2.2.2.1⟩

end Wtp

